import Mathlib

set_option maxRecDepth 8000

/-!
Verification of the realtime conversation sync pipeline of the mongo_sync
repository (`scripts/sync-realtime.js`, PostgreSQL and MongoDB driver
variants, and `src/utils/retry.js`).

Strings are modelled as `List Char`, cursor positions as `Nat` (the source
indexes JS strings by code unit; all text involved is ASCII-level, so
char-list indexing is faithful).  Loops whose JS form is `while` with a
strictly advancing cursor are modelled with an explicit fuel argument that
is large enough by construction; fuel-independence is proved where a claim
is about termination.
-/

/- ===== named characters ===== -/

def squote : Char := Char.ofNat 39

def dquote : Char := Char.ofNat 34

def bslash : Char := Char.ofNat 92

def nlChar : Char := Char.ofNat 10

/- ===== generic JS string-primitive models ===== -/

/-- JS `s.substring(a, b)` (used only with `a ≤ b`; clamps at the ends). -/

def subStr (l : List Char) (a b : Nat) : List Char := (l.take b).drop a

/-- JS `s.indexOf(pat, start)`: least index `j ≥ start` at which `pat`
occurs in `l`, `none` when there is no occurrence (JS returns `-1`). -/

def findFrom (pat l : List Char) (start : Nat) : Option Nat :=
  (List.range (l.length + 1)).find? (fun j => decide (start ≤ j) && pat.isPrefixOf (l.drop j))

/-- JS `s.includes(pat)`. -/

def containsPat (pat l : List Char) : Bool := (findFrom pat l 0).isSome

def isWSChar (c : Char) : Bool :=
  c == ' ' || c == Char.ofNat 9 || c == nlChar || c == Char.ofNat 13 ||
  c == Char.ofNat 11 || c == Char.ofNat 12

/-- JS `s.trim()`. -/

def jsTrim (l : List Char) : List Char :=
  ((l.dropWhile isWSChar).reverse.dropWhile isWSChar).reverse

/-- Index of the first non-whitespace character at or after `i`
(models a greedy regex tail of whitespace starting at `i`). -/

def skipWS (l : List Char) (i : Nat) : Nat :=
  i + ((l.drop i).takeWhile isWSChar).length

/-- JS `s.split(newline)`. -/

def splitNl : List Char → List (List Char)
  | [] => [[]]
  | c :: rest =>
    if c = nlChar then [] :: splitNl rest
    else
      match splitNl rest with
      | [] => [[c]]
      | l :: ls => (c :: l) :: ls

/- ===== Log Fragment Parser (parseContextLog, sync-realtime.js 544-617) ===== -/

/-- The marker phrase `context [` in front of the embedded array. -/

def contextMarker : List Char := "context [".data

/-- `logMessage.match(/context \[(.+)\]$/s)`: the regex anchors the final
`]` at the very end of the string (JS `$` without `m`), the match starts at
the first occurrence of `context [` (an occurrence whose group would be
empty cannot be rescued by a later occurrence, since later occurrences are
even closer to the end), and the greedy `.+` captures everything up to the
final `]`. -/

def extractArrayContent (s : List Char) : Option (List Char) :=
  match findFrom contextMarker s 0 with
  | none => none
  | some i =>
    if s.getLast? = some ']' ∧ i + 11 ≤ s.length then
      some (subStr s (i + 9) (s.length - 1))
    else none

/-- The terminator lookahead of the content scanner: the 1-2 characters
after a candidate closing quote, matched against the accepted terminator
patterns `}`, `, `, `}\n`, `},` (sync-realtime.js 602-603). -/

def terminatorAfter (a : List Char) (j : Nat) : Bool :=
  let after := subStr a j (j + 2)
  "\x7d".data.isPrefixOf after || ", ".data.isPrefixOf after ||
  "\x7d\n".data.isPrefixOf after || "\x7d,".data.isPrefixOf after

/-- The content-extraction state machine (sync-realtime.js 592-608): scan
from `i` with an `escaped` flag; an unescaped occurrence of the active
quote character `q` ends the scan iff the terminator lookahead accepts the
following 1-2 characters.  Fuel-indexed; fuel `a.length` is always enough
since the cursor advances by one each step. -/

def scanContent (a : List Char) (q : Char) : Nat → Nat → Bool → Nat
  | 0, i, _ => i
  | fuel + 1, i, escaped =>
    match a[i]? with
    | none => i
    | some c =>
      if escaped then scanContent a q fuel (i + 1) false
      else if c = bslash then scanContent a q fuel (i + 1) true
      else if c = q then
        if terminatorAfter a (i + 1) then i
        else scanContent a q fuel (i + 1) false
      else scanContent a q fuel (i + 1) false

structure Msg where
  role : String
  content : List Char

deriving DecidableEq, Repr

def roleUserPat : List Char := "'role': 'user'".data

def roleAssistantPat : List Char := "'role': 'assistant'".data

def contentSinglePat : List Char := "'content': '".data

def contentDoublePat : List Char := ("'content': " ++ "\"").data

/-- Role-marker dispatch (sync-realtime.js 554-568): nearest upcoming
`'role': 'user'` / `'role': 'assistant'`, user wins ties by position. -/

def chooseRole (a : List Char) (pos : Nat) : Option (Nat × String) :=
  match findFrom roleUserPat a pos, findFrom roleAssistantPat a pos with
  | some u, some v => if u < v then some (u, "user") else some (v, "assistant")
  | some u, none => some (u, "user")
  | none, some v => some (v, "assistant")
  | none, none => none

/-- Content-marker dispatch (sync-realtime.js 571-581): whichever of the
single-quote / double-quote content marker occurs first after the role
marker determines the active quote character. -/

def chooseContent (a : List Char) (nextMsgPos : Nat) : Option (Nat × Char) :=
  match findFrom contentSinglePat a nextMsgPos, findFrom contentDoublePat a nextMsgPos with
  | some i, some j => if j < i then some (j, dquote) else some (i, squote)
  | some i, none => some (i, squote)
  | none, some j => some (j, dquote)
  | none, none => none

/-- One global, left-to-right JS `replace` of the two-character escape
`\c` by `r` (the three chained `.replace(/\\./g, .)` calls of
sync-realtime.js 610-613 are each of this shape). -/

def replaceEscF (target repl : Char) : Nat → List Char → List Char
  | 0, l => l
  | _ + 1, [] => []
  | fuel + 1, x :: rest =>
    match rest with
    | [] => [x]
    | y :: rest2 =>
      if x = bslash ∧ y = target then repl :: replaceEscF target repl fuel rest2
      else x :: replaceEscF target repl fuel rest

def replaceEsc (target repl : Char) (l : List Char) : List Char :=
  replaceEscF target repl l.length l

/-- Collapse the `\'`, `\"`, `\n` escape sequences, in the source's order. -/

def unescape (l : List Char) : List Char :=
  replaceEsc 'n' nlChar (replaceEsc dquote dquote (replaceEsc squote squote l))

/-- The message loop of `parseContextLog` (sync-realtime.js 553-617).
`contentValueStart = contentStart + 12` is the character right after the
opening quote; `scanContent` computes `contentEnd`; on a missing content
marker the cursor advances by 10 and the loop continues.  Fuel-indexed;
`a.length + 1` fuel is always enough (the cursor strictly increases). -/

def msgLoop (a : List Char) : Nat → Nat → List Msg
  | 0, _ => []
  | fuel + 1, pos =>
    if pos < a.length then
      match chooseRole a pos with
      | none => []
      | some (nextMsgPos, ty) =>
        match chooseContent a nextMsgPos with
        | none => msgLoop a fuel (nextMsgPos + 10)
        | some (contentStart, q) =>
          -- contentEnd = scanContent a q a.length (contentStart + 12) false
          Msg.mk ty (unescape (subStr a (contentStart + 12)
              (scanContent a q a.length (contentStart + 12) false)))
            :: msgLoop a fuel (scanContent a q a.length (contentStart + 12) false + 1)
    else []

/-- The ordered `{role, content}` message list a raw log line parses to. -/

def parseMessages (logMessage : List Char) : List Msg :=
  match extractArrayContent logMessage with
  | none => []
  | some a => msgLoop a (a.length + 1) 0

/- ===== Message Sanitizer (cleanUserMessage, sync-realtime.js 516-542) ===== -/

def kbMarker : List Char := "[KNOWLEDGE BASE CONTEXT]".data

def jsonFenceOpen : List Char := "```json".data

def fenceClose : List Char := "```".data

def escFenceOpen : List Char := "\\`\\`\\`json".data

def escFenceClose : List Char := "\\`\\`\\`".data

/-- One (non-global) JS `replace` of the lazy regex
`marker [\s\S]*? open [\s\S]*? close \s*` by the empty string.  The lazy
engine matches at the first marker occurrence, takes the first `open`
after it and the first `close` after that `open`; neither fence pattern is
self-overlapping, so when the first `open` has no `close` no other start
can complete either, and the function returns the input's match-free
`none`.  The trailing `\s*` is greedy. -/

def removeFenceBlock (openPat closePat : List Char) (l : List Char) : Option (List Char) :=
  match findFrom kbMarker l 0 with
  | none => none
  | some m =>
    match findFrom openPat l (m + kbMarker.length) with
    | none => none
    | some j =>
      match findFrom closePat l (j + openPat.length) with
      | none => none
      | some k =>
        some (subStr l 0 m ++ l.drop (skipWS l (k + closePat.length)))

/-- Fallback 3 of the sanitizer (sync-realtime.js 529-537): last line that,
after trimming, is non-empty and contains neither a fence nor `---`. -/

def fallbackLastLine (l : List Char) : Option (List Char) :=
  ((splitNl l).reverse.map jsTrim).find?
    (fun ln => !ln.isEmpty && !containsPat fenceClose ln && !containsPat "---".data ln)

/-- `cleanUserMessage` (sync-realtime.js 516-542). -/

def cleanUserMessage (msg : List Char) : List Char :=
  if msg.isEmpty then msg
  else if containsPat kbMarker msg then
    let c1 := (removeFenceBlock jsonFenceOpen fenceClose msg).getD msg
    let c2 :=
      if containsPat kbMarker c1 then (removeFenceBlock escFenceOpen escFenceClose c1).getD c1
      else c1
    if containsPat kbMarker c2 then
      match fallbackLastLine c2 with
      | some line => line
      | none => jsTrim c2
    else jsTrim c2
  else msg

/- ===== Turn Assembler (sync-realtime.js 619-641) ===== -/

structure Turn where
  turn_id : Nat
  user_message : List Char
  assistant_message : Option (List Char)
  -- the source also stores `timestamp: new Date()` (wall-clock time at
  -- parse time); it is not modelled

deriving DecidableEq, Repr

/-- The JS emission test `turn.user_message && turn.user_message.trim().length > 0`. -/

def emitB (userMsg : List Char) : Bool := !userMsg.isEmpty && !(jsTrim userMsg).isEmpty

/-- The turn-pairing loop: every `user` message increments the turn
counter and opens a turn; an immediately following `assistant` message is
attached and consumed (skip-ahead by one); the turn is kept only if
`emitB` holds for the sanitized user message.  Fuel-indexed because of
the skip-ahead; fuel = list length is always enough. -/

def assembleTurnsF : Nat → Nat → List Msg → List Turn
  | _, _, [] => []
  | 0, _, _ :: _ => []
  | fuel + 1, tid, m :: [] =>
    if m.role = "user" then
      if emitB (cleanUserMessage m.content) then
        [Turn.mk (tid + 1) (cleanUserMessage m.content) none]
      else []
    else assembleTurnsF fuel tid []
  | fuel + 1, tid, m :: m2 :: rest2 =>
    if m.role = "user" then
      if m2.role = "assistant" then
        (if emitB (cleanUserMessage m.content) then
          [Turn.mk (tid + 1) (cleanUserMessage m.content) (some m2.content)] else [])
          ++ assembleTurnsF fuel (tid + 1) rest2
      else
        (if emitB (cleanUserMessage m.content) then
          [Turn.mk (tid + 1) (cleanUserMessage m.content) none] else [])
          ++ assembleTurnsF fuel (tid + 1) (m2 :: rest2)
    else assembleTurnsF fuel tid (m2 :: rest2)

def assembleTurns (tid : Nat) (ms : List Msg) : List Turn :=
  assembleTurnsF ms.length tid ms

def turnIds (ts : List Turn) : List Nat := ts.map Turn.turn_id

def userCount (ms : List Msg) : Nat := (ms.filter (fun m => m.role = "user")).length

/-- `parseContextLog` (sync-realtime.js 544-644): messages, then turns. -/

def parseContextLog (logMessage : List Char) : List Turn :=
  assembleTurns 0 (parseMessages logMessage)

/- ===== Session Context Selector (sync-realtime.js 729-740) ===== -/

structure Snapshot where
  logText : List Char
  time : Int
  isUniversal : Bool

deriving DecidableEq, Repr

/-- Per-session update rule for one candidate `c` against the currently
stored snapshot: store when nothing is stored; a universal candidate
replaces a stored model-specific one; between equal kinds the strictly
later timestamp wins; otherwise keep the stored one. -/

def selectSnapshot (current : Option Snapshot) (c : Snapshot) : Snapshot :=
  match current with
  | none => c
  | some e =>
    if c.isUniversal = true ∧ e.isUniversal = false then c
    else if c.isUniversal = e.isUniversal ∧ e.time < c.time then c
    else e

/-- Feeding a sequence of candidates for one session through the selector. -/

def runSelector (cs : List Snapshot) : Option Snapshot :=
  cs.foldl (fun cur c => some (selectSnapshot cur c)) none

/- ===== Incremental Fetch Controller (sync-realtime.js 700-751) ===== -/

structure LogEntry where
  timestamp : Int
  logText : List Char

deriving DecidableEq, Repr

structure Page where
  data : List LogEntry
  hasMore : Bool

deriving DecidableEq, Repr

abbrev SMap := List (List Char × Snapshot)

def mapGet (m : SMap) (k : List Char) : Option Snapshot :=
  (m.find? (fun kv => kv.1 == k)).map (fun kv => kv.2)

def mapSet (m : SMap) (k : List Char) (v : Snapshot) : SMap :=
  if (m.find? (fun kv => kv.1 == k)).isSome then
    m.map (fun kv => if kv.1 == k then (k, v) else kv)
  else m ++ [(k, v)]

def isHexDig (c : Char) : Bool :=
  ('0' ≤ c ∧ c ≤ '9') ∨ ('a' ≤ c ∧ c ≤ 'f') ∨ ('A' ≤ c ∧ c ≤ 'F')

/-- The 36-character 8-4-4-4-12 identifier shape at offset `i`. -/

def uuidAt (l : List Char) (i : Nat) : Bool :=
  (List.range 36).all (fun o =>
    match l[i + o]? with
    | none => false
    | some c => if o = 8 ∨ o = 13 ∨ o = 18 ∨ o = 23 then c = '-' else isHexDig c)

/-- `extractSessionId` (sync-realtime.js 511-514): leftmost UUID-shaped
substring, `none` when the text has none. -/

def extractSessionId (l : List Char) : Option (List Char) :=
  ((List.range (l.length + 1)).find? (fun i => uuidAt l i)).map (fun i => subStr l i (i + 36))

def univMarker : List Char := "universal context".data

/-- Per-log-entry processing inside the page loop (sync-realtime.js
723-740): filter on `context [`, attribute to a session, classify the
snapshot kind and update the per-session map by the selector rule. -/

def processEntry (m : SMap) (e : LogEntry) : SMap :=
  if containsPat contextMarker e.logText = false then m
  else
    match extractSessionId e.logText with
    | none => m
    | some sid =>
      let c : Snapshot := Snapshot.mk e.logText e.timestamp (containsPat univMarker e.logText)
      match mapGet m sid with
      | none => mapSet m sid c
      | some cur =>
        if c.isUniversal = true ∧ cur.isUniversal = false then mapSet m sid c
        else if c.isUniversal = cur.isUniversal ∧ cur.time < c.time then mapSet m sid c
        else m

/-- The per-page entry loop (sync-realtime.js 715-741): entries in order;
the first entry older than the horizon sets the stop flag and breaks, so
entries after it are not processed. -/

def processLogs (horizon : Int) : List LogEntry → SMap → Bool × SMap
  | [], m => (false, m)
  | e :: rest, m =>
    if e.timestamp < horizon then (true, m)
    else processLogs horizon rest (processEntry m e)

/-- The per-agent page loop (sync-realtime.js 709-751).  `pages` is the
upstream log listing (page number to response), `limit` the page size
(100 in the source).  Returns the page numbers requested, in order, and
the final session map.  Fuel bounds the number of page requests; the
claims quantify over it. -/

def fetchLoop (pages : Nat → Page) (horizon : Int) (limit : Nat) :
    Nat → Nat → SMap → List Nat × SMap
  | 0, _, m => ([], m)
  | fuel + 1, p, m =>
    if (pages p).data = [] then ([p], m)
    else
      match processLogs horizon (pages p).data m with
      | (stop, m2) =>
        if stop then ([p], m2)
        else if (pages p).hasMore = false ∨ (pages p).data.length < limit then ([p], m2)
        else
          match fetchLoop pages horizon limit fuel (p + 1) m2 with
          | (ps, m3) => (p :: ps, m3)

/- ===== Convergence/Upsert Engine (sync-realtime.js 753-781 Mongo variant,
   342-387 PostgreSQL variant) ===== -/

structure ConvRec where
  turns : List Turn
  total_turns : Nat
  last_message_at : Int

deriving DecidableEq, Repr

/-- The skip test (line 759 / 349): a persisted record exists, its stored
turn list has the same length as the newly derived one, and its
`last_message_at` is not older than the candidate snapshot's timestamp. -/

def skipWrite (existing : Option ConvRec) (turns : List Turn) (time : Int) : Bool :=
  match existing with
  | none => false
  | some e => decide (e.turns.length = turns.length) && decide (time ≤ e.last_message_at)

/-- Per-session convergence step of the MongoDB realtime driver (lines
753-781).  This variant performs no parent-session lookup before the
upsert: its result does not depend on whether a Session record exists.
Returns the new persisted record and whether a write happened. -/

def convergeMongo (existing : Option ConvRec) (turns : List Turn) (time : Int) :
    Option ConvRec × Bool :=
  if turns.length = 0 then (existing, false)
  else if skipWrite existing turns time then (existing, false)
  else (some (ConvRec.mk turns turns.length time), true)

/-- Per-session convergence step of the PostgreSQL realtime driver (lines
342-387): same as the Mongo variant, plus the parent-session guard of
lines 353-359 (`Session.findOne`; a missing parent drops the candidate
with no write). -/

def convergePG (parentExists : Bool) (existing : Option ConvRec) (turns : List Turn)
    (time : Int) : Option ConvRec × Bool :=
  if turns.length = 0 then (existing, false)
  else if skipWrite existing turns time then (existing, false)
  else if parentExists = false then (existing, false)
  else (some (ConvRec.mk turns turns.length time), true)

/- ===== Retry/Backoff wrapper (src/utils/retry.js 3-32) ===== -/

/-- `error.response && 400 <= status < 500 && status != 429`; `none`
models an error without an HTTP response. -/

def nonRetryable (status : Option Nat) : Bool :=
  match status with
  | some s => decide (400 ≤ s) && decide (s < 500) && decide (s ≠ 429)
  | none => false

/-- The attempt loop of `retryWithBackoff`.  `op k` is the outcome of the
`k`-th attempt (`Sum.inl` an error, `Sum.inr` a success), `st` reads the
HTTP status off an error.  Returns the outcome together with the number
of the attempt that produced it.  Fuel counts the remaining retries; it
equals `maxRetries - attempt` at every call, so the fuel-exhausted branch
is never taken from the top-level entry. -/

def retryAux {ε α : Type} (op : Nat → ε ⊕ α) (st : ε → Option Nat) (maxRetries : Nat) :
    Nat → Nat → (ε ⊕ α) × Nat
  | 0, attempt =>
    -- fuel = maxRetries - attempt, so fuel 0 means this is the final
    -- attempt: its error (of either kind) is thrown, its success returned
    match op attempt with
    | Sum.inr a => (Sum.inr a, attempt)
    | Sum.inl e => (Sum.inl e, attempt)
  | fuel + 1, attempt =>
    match op attempt with
    | Sum.inr a => (Sum.inr a, attempt)
    | Sum.inl e =>
      if nonRetryable (st e) then (Sum.inl e, attempt)
      else if attempt = maxRetries then (Sum.inl e, attempt)
      else retryAux op st maxRetries fuel (attempt + 1)

/-- `retryWithBackoff` (retry.js 3-32); attempts are numbered 1 to
`maxRetries`.  With `maxRetries = 0` the loop body never runs and the
function throws the undefined `lastError`, modelled as `none`. -/

def retryWithBackoff {ε α : Type} (op : Nat → ε ⊕ α) (st : ε → Option Nat)
    (maxRetries : Nat) : Option ((ε ⊕ α) × Nat) :=
  if maxRetries = 0 then none
  else some (retryAux op st maxRetries (maxRetries - 1) 1)

/- ===== Claim C2: parser round-trip on a synthetic two-turn log line ===== -/

/-- A synthetic log line: two user/assistant turns, the first user content
with an embedded unescaped apostrophe, the second with escaped quotes and
an escaped apostrophe. -/

def c2Log : List Char :=
  ("2026-01-02 Generating chat from universal context [\x7b'role': 'user', 'content': 'What's the refund policy?'\x7d, \x7b'role': 'assistant', 'content': 'Here is the policy.'\x7d, \x7b'role': 'user', 'content': 'He said \\\"refund\\\" and it\\'s fine'\x7d, \x7b'role': 'assistant', 'content': 'Great'\x7d]").data

/- ===== Claim C9: sanitizer ===== -/

/-- Marker, injected context with a fenced code block, trailing question. -/

def c9Input : List Char :=
  ("[KNOWLEDGE BASE CONTEXT]\nHere is context:\n```json\n\x7b \"docs\": [1, 2] \x7d\n```\nWhat is the refund policy?").data

def c4Existing : ConvRec := ConvRec.mk [Turn.mk 1 "q".data none] 1 10

/- ===== Claim C7: parent-session guard ===== -/

def c7Turn : Turn := Turn.mk 1 "hi".data none

def c8Example : List Char := ("x'\x7d ").data

/- ===== Claim C6: retry wrapper ===== -/

/-- Attempt `k` fails with an error the wrapper considers retryable. -/

def failRetry {e a : Type} (op : Nat → e ⊕ a) (st : e → Option Nat) (k : Nat) : Prop :=
  ∃ err, op k = Sum.inl err ∧ nonRetryable (st err) = false

def c6Op : Nat → Nat ⊕ Nat := fun k => if k = 1 then Sum.inl 500 else Sum.inr 7

def c5Pages : Nat → Page := fun p =>
  if p ≤ 2 then Page.mk (List.replicate 100 (LogEntry.mk 10 [])) true
  else Page.mk [LogEntry.mk 1 []] true

/-- A log line whose first user content is empty: its turn is dropped but
the counter still advances. -/

def c3BadLog : List Char :=
  ("context [\x7b'role': 'user', 'content': ''\x7d, \x7b'role': 'user', 'content': 'hi'\x7d]").data

/- ===== lemmas and claim theorems ===== -/

/-- Claim C2: on a synthetic log line ending in a `context [...]`
pseudo-literal with two user/assistant turns, one user content holding an
embedded unescaped apostrophe and another content holding escaped quotes,
the parser extracts exactly the encoded messages, correctly separated,
with content equal to the literal original after collapsing the escape
sequences; the assembled turns pair them without truncation or
spill-over. -/

theorem c2_parser_roundtrip :
    parseMessages c2Log =
      [Msg.mk "user" "What's the refund policy?".data,
       Msg.mk "assistant" "Here is the policy.".data,
       Msg.mk "user" ("He said \"refund\" and it's fine").data,
       Msg.mk "assistant" "Great".data] ∧
    parseContextLog c2Log =
      [Turn.mk 1 "What's the refund policy?".data (some "Here is the policy.".data),
       Turn.mk 2 ("He said \"refund\" and it's fine").data (some "Great".data)] := by
  constructor <;> decide

/-- Claim C9: a user message made of the knowledge-base marker, injected
context with a fenced code block and a trailing question sanitizes to
exactly the trailing question; any message without the marker literal
passes through unchanged. -/

theorem c9_sanitizer (msg : List Char) (h : containsPat kbMarker msg = false) :
    cleanUserMessage c9Input = "What is the refund policy?".data ∧
    cleanUserMessage msg = msg := by
  refine ⟨by decide, ?_⟩
  unfold cleanUserMessage
  rw [h]
  split <;> simp

theorem c9_sanitizer_witness :
    cleanUserMessage c9Input = "What is the refund policy?".data ∧
    cleanUserMessage "hello".data = "hello".data :=
  c9_sanitizer "hello".data (by decide)

/- ===== Claim C1: session context selector ===== -/

/-- Claim C1: a universal candidate always replaces a stored
model-specific snapshot regardless of timestamps; a model-specific
candidate never replaces a stored universal one; between equal kinds the
strictly later timestamp is kept; and feeding
`[modelSpecific@t1, universal@t0, universal@t2]` with `t0 < t1 < t2`
yields `universal@t2` as the final stored snapshot. -/

theorem c1_selector (l1 l2 l3 : List Char) (t0 t1 t2 : Int) (e c : Snapshot)
    (h01 : t0 < t1) (h12 : t1 < t2) :
    (c.isUniversal = true → e.isUniversal = false → selectSnapshot (some e) c = c) ∧
    (c.isUniversal = false → e.isUniversal = true → selectSnapshot (some e) c = e) ∧
    (c.isUniversal = e.isUniversal →
      selectSnapshot (some e) c = if e.time < c.time then c else e) ∧
    runSelector [Snapshot.mk l1 t1 false, Snapshot.mk l2 t0 true, Snapshot.mk l3 t2 true] =
      some (Snapshot.mk l3 t2 true) := by
  refine ⟨?_, ?_, ?_, ?_⟩
  · intro hc he
    simp [selectSnapshot, hc, he]
  · intro hc he
    simp [selectSnapshot, hc, he]
  · intro hq
    cases hcu : c.isUniversal <;> rw [hcu] at hq <;>
      simp [selectSnapshot, hcu, ← hq]
  · have h02 : t0 < t2 := h01.trans h12
    simp [runSelector, List.foldl, selectSnapshot, h02]

theorem c1_selector_witness :
    runSelector [Snapshot.mk [] 1 false, Snapshot.mk [] 0 true, Snapshot.mk [] 2 true] =
      some (Snapshot.mk [] 2 true) :=
  (c1_selector [] [] [] 0 1 2 (Snapshot.mk [] 0 true) (Snapshot.mk [] 0 false)
    (by decide) (by decide)).2.2.2

/- ===== Claim C4: convergence engine idempotence ===== -/

/-- Claim C4: when a persisted Conversation exists whose turn count
equals the newly derived one and whose `last_message_at` is not older
than the candidate timestamp, neither driver writes and the state is
unchanged; and running either driver twice on unchanged inputs leaves
the state of the first run with the second run performing no write. -/

theorem c4_idempotent (pe : Bool) (existing : Option ConvRec) (turns : List Turn)
    (time : Int) :
    (∀ e : ConvRec, existing = some e → e.turns.length = turns.length →
       time ≤ e.last_message_at →
       convergeMongo existing turns time = (existing, false) ∧
       convergePG pe existing turns time = (existing, false)) ∧
    convergeMongo (convergeMongo existing turns time).1 turns time =
      ((convergeMongo existing turns time).1, false) ∧
    convergePG pe (convergePG pe existing turns time).1 turns time =
      ((convergePG pe existing turns time).1, false) := by
  refine ⟨?_, ?_, ?_⟩
  · intro e he h2 h3
    subst he
    by_cases h0 : turns.length = 0 <;>
      simp [convergeMongo, convergePG, skipWrite, h0, h2, h3]
  · by_cases h0 : turns.length = 0
    · simp [convergeMongo, h0]
    · by_cases hs : skipWrite existing turns time = true
      · simp [convergeMongo, h0, hs]
      · have h1 : convergeMongo existing turns time =
            (some (ConvRec.mk turns turns.length time), true) := by
          simp [convergeMongo, h0, hs]
        rw [h1]
        simp [convergeMongo, skipWrite, h0]
  · by_cases h0 : turns.length = 0
    · simp [convergePG, h0]
    · by_cases hs : skipWrite existing turns time = true
      · simp [convergePG, h0, hs]
      · by_cases hp : pe = false
        · simp [convergePG, h0, hs, hp]
        · have h1 : convergePG pe existing turns time =
              (some (ConvRec.mk turns turns.length time), true) := by
            simp [convergePG, h0, hs, hp]
          rw [h1]
          simp [convergePG, skipWrite, h0]

theorem c4_idempotent_witness :
    convergeMongo (some c4Existing) [Turn.mk 1 "q2".data none] 5 = (some c4Existing, false) :=
  ((c4_idempotent true (some c4Existing) [Turn.mk 1 "q2".data none] 5).1 c4Existing
    rfl (by decide) (by decide)).1

/-- Claim C7 counterexample: the MongoDB realtime driver's convergence
step takes no parent-session input at all (sync-realtime.js 753-781 has
no `Session.findOne` guard), so with no persisted Conversation it
performs the upsert and creates a Conversation record whether or not a
parent Session exists — the claimed invariant fails for that driver
variant. -/

theorem c7_counterexample :
    (convergeMongo none [c7Turn] 5).2 = true ∧
    (convergeMongo none [c7Turn] 5).1 = some (ConvRec.mk [c7Turn] 1 5) := by
  decide

/-- Claim C7 (amended): in the PostgreSQL realtime driver a candidate
whose session has no parent Session record is silently dropped — no
write, persisted state unchanged — for every conversation state and
candidate. -/

theorem c7_pg_no_orphan (existing : Option ConvRec) (turns : List Turn) (time : Int) :
    convergePG false existing turns time = (existing, false) := by
  unfold convergePG
  split_ifs <;> simp_all

theorem c7_pg_no_orphan_witness :
    convergePG false none [c7Turn] 5 = (none, false) :=
  c7_pg_no_orphan none [c7Turn] 5

/- ===== Claim C8: content-scan terminator lookahead ===== -/

lemma scanContent_ge (a : List Char) (q : Char) :
    ∀ fuel i esc, i ≤ scanContent a q fuel i esc := by
  intro fuel
  induction fuel with
  | zero => intro i esc; simp [scanContent]
  | succ f ih =>
    intro i esc
    cases h : a[i]? with
    | none => simp [scanContent, h]
    | some c =>
      simp only [scanContent, h]
      split_ifs <;> first
        | exact Nat.le_refl i
        | exact Nat.le_of_succ_le (ih _ _)

/-- Claim C8: during content extraction, at a position holding the active
quote character with the escape flag clear, scanning stops at that quote
iff the 1-2 character lookahead right after it matches one of exactly the
four terminator patterns (closing brace, comma-plus-space,
brace-then-newline, comma-then-brace); on any other lookahead the quote
is literal content and the scan continues at the next position. -/

theorem c8_terminator_lookahead (a : List Char) (q : Char) (i fuel : Nat)
    (hq : q = squote ∨ q = dquote) (hc : a[i]? = some q) :
    (scanContent a q (fuel + 1) i false = i ↔
      ("\x7d".data.isPrefixOf (subStr a (i + 1) (i + 3)) = true ∨
       ", ".data.isPrefixOf (subStr a (i + 1) (i + 3)) = true ∨
       "\x7d\n".data.isPrefixOf (subStr a (i + 1) (i + 3)) = true ∨
       "\x7d,".data.isPrefixOf (subStr a (i + 1) (i + 3)) = true)) ∧
    (terminatorAfter a (i + 1) = false →
      scanContent a q (fuel + 1) i false = scanContent a q fuel (i + 1) false) := by
  have hqb : ¬(q = bslash) := by
    rcases hq with h | h <;> subst h <;> decide
  have h3 : i + 1 + 2 = i + 3 := by omega
  have hterm : (terminatorAfter a (i + 1) = true) ↔
      ("\x7d".data.isPrefixOf (subStr a (i + 1) (i + 3)) = true ∨
       ", ".data.isPrefixOf (subStr a (i + 1) (i + 3)) = true ∨
       "\x7d\n".data.isPrefixOf (subStr a (i + 1) (i + 3)) = true ∨
       "\x7d,".data.isPrefixOf (subStr a (i + 1) (i + 3)) = true) := by
    simp only [terminatorAfter, h3, Bool.or_eq_true]
    tauto
  have hstep : scanContent a q (fuel + 1) i false =
      if terminatorAfter a (i + 1) then i else scanContent a q fuel (i + 1) false := by
    simp only [scanContent, hc]
    simp [hqb]
  constructor
  · rw [hstep]
    by_cases ht : terminatorAfter a (i + 1) = true
    · rw [if_pos ht]
      exact iff_of_true rfl (hterm.mp ht)
    · rw [if_neg ht]
      have hge := scanContent_ge a q fuel (i + 1) false
      exact iff_of_false (fun heq => by omega) (fun hd => ht (hterm.mpr hd))
  · intro ht
    rw [hstep, if_neg (by simp [ht])]

theorem c8_terminator_lookahead_witness :
    scanContent c8Example squote 4 1 false = 1 :=
  ((c8_terminator_lookahead c8Example squote 1 3 (Or.inl rfl) (by decide)).1).mpr
    (by decide)

lemma retryAux_advance {e a : Type} (op : Nat → e ⊕ a) (st : e → Option Nat)
    (mr j : Nat) (hjm : j ≤ mr) :
    ∀ fuel attempt, attempt + fuel = mr → attempt ≤ j →
      (∀ k, attempt ≤ k → k < j → failRetry op st k) →
      retryAux op st mr fuel attempt = retryAux op st mr (mr - j) j := by
  intro fuel
  induction fuel with
  | zero =>
    intro attempt h hj hpre
    have h1 : attempt = mr := by omega
    have h2 : j = attempt := by omega
    subst h2
    rw [show mr - j = 0 by omega]
  | succ f ih =>
    intro attempt h hj hpre
    rcases Nat.eq_or_lt_of_le hj with he | hlt
    · subst he
      rw [show mr - attempt = f + 1 by omega]
    · obtain ⟨err, hop, hnr⟩ := hpre attempt (Nat.le_refl attempt) hlt
      have hne : ¬(attempt = mr) := by omega
      simp only [retryAux, hop, hnr]
      rw [if_neg (by simp), if_neg hne]
      exact ih (attempt + 1) (by omega) hlt
        (fun k hk1 hk2 => hpre k (by omega) hk2)

/-- Claim C6: when attempts `1..j-1` fail retryably, a success at attempt
`j` is returned with no further attempt; a 4xx-other-than-429 error at
attempt `j` is rethrown immediately with no further attempt; and when all
`maxRetries` attempts fail retryably the error of the final attempt is
thrown to the caller. -/

theorem c6_retry (e a : Type) (op : Nat → e ⊕ a) (st : e → Option Nat) (mr j : Nat)
    (h1 : 1 ≤ mr) (hj1 : 1 ≤ j) (hjm : j ≤ mr)
    (hpre : ∀ k, 1 ≤ k → k < j → failRetry op st k) :
    (∀ x, op j = Sum.inr x → retryWithBackoff op st mr = some (Sum.inr x, j)) ∧
    (∀ err, op j = Sum.inl err → nonRetryable (st err) = true →
       retryWithBackoff op st mr = some (Sum.inl err, j)) ∧
    (j = mr → ∀ err, op mr = Sum.inl err → nonRetryable (st err) = false →
       retryWithBackoff op st mr = some (Sum.inl err, mr)) := by
  have hbase : retryWithBackoff op st mr = some (retryAux op st mr (mr - j) j) := by
    unfold retryWithBackoff
    rw [if_neg (by omega)]
    rw [retryAux_advance op st mr j hjm (mr - 1) 1 (by omega) hj1 hpre]
  refine ⟨?_, ?_, ?_⟩
  · intro x hop
    rw [hbase]
    cases hf : mr - j with
    | zero => simp [retryAux, hop]
    | succ f => simp [retryAux, hop]
  · intro err hop hnr
    rw [hbase]
    cases hf : mr - j with
    | zero => simp [retryAux, hop, hnr]
    | succ f => simp [retryAux, hop, hnr]
  · intro hjmr err hop hnr
    subst hjmr
    rw [hbase]
    rw [show j - j = 0 by omega]
    simp [retryAux, hop, hnr]

theorem c6_retry_witness : retryWithBackoff c6Op some 3 = some (Sum.inr 7, 2) :=
  (c6_retry Nat Nat c6Op some 3 2 (by omega) (by omega) (by omega)
    (fun k hk1 hk2 => ⟨500, by
      have : k = 1 := by omega
      subst this
      exact ⟨rfl, rfl⟩⟩)).1 7 rfl

/- ===== Claim C5: incremental fetch early stop ===== -/

lemma processLogs_fst (horizon : Int) :
    ∀ (logs : List LogEntry) (m : SMap),
      (processLogs horizon logs m).1 = logs.any (fun x => decide (x.timestamp < horizon)) := by
  intro logs
  induction logs with
  | nil => intro m; rfl
  | cons x rest ih =>
    intro m
    simp only [processLogs, List.any_cons]
    by_cases h : x.timestamp < horizon
    · simp [h]
    · simp [h, ih]

lemma fetchLoop_head (pages : Nat → Page) (horizon : Int) (limit : Nat)
    (fuel p : Nat) (m : SMap) :
    ∃ rest m2, fetchLoop pages horizon limit (fuel + 1) p m = (p :: rest, m2) := by
  simp only [fetchLoop]
  by_cases h1 : (pages p).data = []
  · rw [if_pos h1]
    exact ⟨[], m, rfl⟩
  · rw [if_neg h1]
    rcases hpl : processLogs horizon (pages p).data m with ⟨stop, m2⟩
    cases stop
    · by_cases h2 : (pages p).hasMore = false ∨ (pages p).data.length < limit
      · rw [if_neg (by simp), if_pos h2]
        exact ⟨[], m2, rfl⟩
      · rw [if_neg (by simp), if_neg h2]
        rcases hfl : fetchLoop pages horizon limit fuel (p + 1) m2 with ⟨ps, m3⟩
        exact ⟨ps, m3, rfl⟩
    · rw [if_pos rfl]
      exact ⟨[], m2, rfl⟩

/-- Claim C5: in the per-agent page loop, a page holding an entry older
than the sync horizon is the last page ever requested (no later page
request occurs); when no entry of the requested page is older than the
horizon, the next page is requested exactly when the page is non-empty,
the `hasMore` flag is set and the page is full (at least `limit`
entries). -/

lemma fetchLoop_succ (pages : Nat → Page) (horizon : Int) (limit : Nat)
    (fuel p : Nat) (m : SMap) :
    fetchLoop pages horizon limit (fuel + 1) p m =
      if (pages p).data = [] then ([p], m)
      else if (processLogs horizon (pages p).data m).1 = true then
        ([p], (processLogs horizon (pages p).data m).2)
      else if (pages p).hasMore = false ∨ (pages p).data.length < limit then
        ([p], (processLogs horizon (pages p).data m).2)
      else
        (p :: (fetchLoop pages horizon limit fuel (p + 1)
                (processLogs horizon (pages p).data m).2).1,
         (fetchLoop pages horizon limit fuel (p + 1)
                (processLogs horizon (pages p).data m).2).2) := rfl

theorem c5_early_stop (pages : Nat → Page) (horizon : Int) (limit : Nat)
    (m : SMap) (fuel p : Nat) :
    ((pages p).data.any (fun x => decide (x.timestamp < horizon)) = true →
      (fetchLoop pages horizon limit (fuel + 2) p m).1 = [p]) ∧
    ((pages p).data.any (fun x => decide (x.timestamp < horizon)) = false →
      ((p + 1) ∈ (fetchLoop pages horizon limit (fuel + 2) p m).1 ↔
        ((pages p).data ≠ [] ∧ (pages p).hasMore = true ∧
          limit ≤ (pages p).data.length))) := by
  have hfst := processLogs_fst horizon (pages p).data m
  rw [show fuel + 2 = fuel + 1 + 1 by omega, fetchLoop_succ]
  constructor
  · intro hold
    have h1 : (pages p).data ≠ [] := by
      intro he
      rw [he] at hold
      simp at hold
    rw [if_neg h1, if_pos (by rw [hfst, hold])]
  · intro hold
    by_cases h1 : (pages p).data = []
    · rw [if_pos h1]
      simp only [List.mem_singleton]
      constructor
      · intro hmem; omega
      · intro hrhs; exact absurd h1 hrhs.1
    · rw [if_neg h1, if_neg (by rw [hfst, hold]; simp)]
      by_cases h2 : (pages p).hasMore = false ∨ (pages p).data.length < limit
      · rw [if_pos h2]
        simp only [List.mem_singleton]
        constructor
        · intro hmem; omega
        · intro hrhs
          rcases h2 with h2 | h2
          · rw [hrhs.2.1] at h2; cases h2
          · omega
      · rw [if_neg h2]
        push_neg at h2
        obtain ⟨rest2, m4, hh⟩ :=
          fetchLoop_head pages horizon limit fuel (p + 1)
            (processLogs horizon (pages p).data m).2
        constructor
        · intro _
          refine ⟨h1, ?_, h2.2⟩
          cases hmore : (pages p).hasMore
          · exact absurd hmore h2.1
          · rfl
        · intro _
          simp [hh]

theorem c5_early_stop_witness :
    (fetchLoop c5Pages 5 100 2 3 []).1 = [3] :=
  (c5_early_stop c5Pages 5 100 [] 0 3).1 (by decide)

/- ===== Claim C3: turn id and non-emptiness invariants ===== -/

lemma chainLt_of_le {b a : Nat} {l : List Nat} (h : List.Chain' (· < ·) (a :: l))
    (hba : b ≤ a) : List.Chain' (· < ·) (b :: l) := by
  cases l with
  | nil => simp
  | cons c l2 =>
    rw [List.chain'_cons] at h ⊢
    exact ⟨Nat.lt_of_le_of_lt hba h.1, h.2⟩

lemma assembleF_chain :
    ∀ (fuel : Nat) (ms : List Msg) (tid : Nat),
      List.Chain' (· < ·) (tid :: turnIds (assembleTurnsF fuel tid ms)) := by
  intro fuel
  induction fuel with
  | zero =>
    intro ms tid
    cases ms <;> simp [assembleTurnsF, turnIds]
  | succ f ih =>
    intro ms tid
    cases ms with
    | nil => simp [assembleTurnsF, turnIds]
    | cons m rest =>
      cases rest with
      | nil =>
        simp only [assembleTurnsF]
        by_cases hu : m.role = "user"
        · rw [if_pos hu]
          by_cases he : emitB (cleanUserMessage m.content) = true
          · rw [if_pos he]
            simp [turnIds, List.chain'_cons]
          · rw [if_neg he]
            simp [turnIds]
        · rw [if_neg hu]
          simp [turnIds]
      | cons m2 rest2 =>
        simp only [assembleTurnsF]
        by_cases hu : m.role = "user"
        · rw [if_pos hu]
          by_cases ha : m2.role = "assistant"
          · rw [if_pos ha]
            by_cases he : emitB (cleanUserMessage m.content) = true
            · rw [if_pos he]
              have hr := ih rest2 (tid + 1)
              simp only [turnIds, List.map_append, List.map_cons, List.map_nil,
                List.singleton_append] at hr ⊢
              rw [List.chain'_cons]
              exact ⟨Nat.lt_succ_self tid, hr⟩
            · rw [if_neg he]
              have hr := ih rest2 (tid + 1)
              simp only [turnIds, List.nil_append] at hr ⊢
              exact chainLt_of_le hr (Nat.le_succ tid)
          · rw [if_neg ha]
            by_cases he : emitB (cleanUserMessage m.content) = true
            · rw [if_pos he]
              have hr := ih (m2 :: rest2) (tid + 1)
              simp only [turnIds, List.map_append, List.map_cons, List.map_nil,
                List.singleton_append] at hr ⊢
              rw [List.chain'_cons]
              exact ⟨Nat.lt_succ_self tid, hr⟩
            · rw [if_neg he]
              have hr := ih (m2 :: rest2) (tid + 1)
              simp only [turnIds, List.nil_append] at hr ⊢
              exact chainLt_of_le hr (Nat.le_succ tid)
        · rw [if_neg hu]
          exact ih (m2 :: rest2) tid

lemma emitB_trim {u : List Char} (he : emitB u = true) : jsTrim u ≠ [] := by
  simp only [emitB, Bool.and_eq_true, Bool.not_eq_true', List.isEmpty_eq_false] at he
  intro hc
  exact he.2 (by simp [hc, List.isEmpty_iff])

lemma assembleF_trim :
    ∀ (fuel : Nat) (ms : List Msg) (tid : Nat) (t : Turn),
      t ∈ assembleTurnsF fuel tid ms → jsTrim t.user_message ≠ [] := by
  intro fuel
  induction fuel with
  | zero =>
    intro ms tid t ht
    cases ms <;> simp [assembleTurnsF] at ht
  | succ f ih =>
    intro ms tid t ht
    cases ms with
    | nil => simp [assembleTurnsF] at ht
    | cons m rest =>
      cases rest with
      | nil =>
        simp only [assembleTurnsF] at ht
        by_cases hu : m.role = "user"
        · rw [if_pos hu] at ht
          by_cases he : emitB (cleanUserMessage m.content) = true
          · rw [if_pos he] at ht
            simp only [List.mem_singleton] at ht
            subst ht
            exact emitB_trim he
          · rw [if_neg he] at ht
            simp at ht
        · rw [if_neg hu] at ht
          simp at ht
      | cons m2 rest2 =>
        simp only [assembleTurnsF] at ht
        by_cases hu : m.role = "user"
        · rw [if_pos hu] at ht
          by_cases ha : m2.role = "assistant"
          · rw [if_pos ha] at ht
            by_cases he : emitB (cleanUserMessage m.content) = true
            · rw [if_pos he] at ht
              rcases List.mem_append.mp ht with h | h
              · simp only [List.mem_singleton] at h
                subst h
                exact emitB_trim he
              · exact ih rest2 (tid + 1) t h
            · rw [if_neg he] at ht
              rw [List.nil_append] at ht
              exact ih rest2 (tid + 1) t ht
          · rw [if_neg ha] at ht
            by_cases he : emitB (cleanUserMessage m.content) = true
            · rw [if_pos he] at ht
              rcases List.mem_append.mp ht with h | h
              · simp only [List.mem_singleton] at h
                subst h
                exact emitB_trim he
              · exact ih (m2 :: rest2) (tid + 1) t h
            · rw [if_neg he] at ht
              rw [List.nil_append] at ht
              exact ih (m2 :: rest2) (tid + 1) t ht
        · rw [if_neg hu] at ht
          exact ih (m2 :: rest2) tid t ht

lemma assembleF_range :
    ∀ (fuel : Nat) (ms : List Msg), ms.length ≤ fuel →
      (∀ m ∈ ms, m.role = "user" → emitB (cleanUserMessage m.content) = true) →
      ∀ tid, turnIds (assembleTurnsF fuel tid ms) = List.range' (tid + 1) (userCount ms) := by
  intro fuel
  induction fuel with
  | zero =>
    intro ms hlen hall tid
    have hnil : ms = [] := List.length_eq_zero.mp (Nat.le_zero.mp hlen)
    subst hnil
    simp [assembleTurnsF, turnIds, userCount]
  | succ f ih =>
    intro ms hlen hall tid
    cases ms with
    | nil => simp [assembleTurnsF, turnIds, userCount]
    | cons m rest =>
      cases rest with
      | nil =>
        simp only [assembleTurnsF]
        by_cases hu : m.role = "user"
        · rw [if_pos hu]
          have hemit := hall m (List.mem_cons_self m []) hu
          rw [if_pos hemit]
          simp [turnIds, userCount, hu, List.range'_succ]
        · rw [if_neg hu]
          have hcount : userCount [m] = 0 := by
            simp [userCount, hu]
          rw [hcount]
          cases f <;> simp [assembleTurnsF, turnIds]
      | cons m2 rest2 =>
        simp only [assembleTurnsF]
        by_cases hu : m.role = "user"
        · rw [if_pos hu]
          have hemit := hall m (List.mem_cons_self m (m2 :: rest2)) hu
          by_cases ha : m2.role = "assistant"
          · rw [if_pos ha, if_pos hemit]
            have hr := ih rest2 (by simp at hlen ⊢; omega)
              (fun x hx hxu => hall x (by simp [hx]) hxu) (tid + 1)
            have hcount : userCount (m :: m2 :: rest2) = userCount rest2 + 1 := by
              have hna : ¬(m2.role = "user") := by
                rw [ha]; decide
              simp [userCount, hu, hna]
            rw [hcount, List.range'_succ]
            simp only [turnIds, List.map_append, List.map_cons, List.map_nil,
              List.singleton_append] at hr ⊢
            rw [hr]
          · rw [if_neg ha, if_pos hemit]
            have hr := ih (m2 :: rest2) (by simp at hlen ⊢; omega)
              (fun x hx hxu => hall x (by simp [hx]) hxu) (tid + 1)
            have hcount : userCount (m :: m2 :: rest2) = userCount (m2 :: rest2) + 1 := by
              simp [userCount, hu]
            rw [hcount, List.range'_succ]
            simp only [turnIds, List.map_append, List.map_cons, List.map_nil,
              List.singleton_append] at hr ⊢
            rw [hr]
        · rw [if_neg hu]
          have hr := ih (m2 :: rest2) (by simp at hlen ⊢; omega)
            (fun x hx hxu => hall x (by simp [hx]) hxu) tid
          have hcount : userCount (m :: m2 :: rest2) = userCount (m2 :: rest2) := by
            simp [userCount, hu]
          rw [hcount, hr]

/-- Claim C3 (amended): the emitted turn ids are strictly increasing (no
duplicates), every emitted turn's user message is non-empty after
trimming, and the ids are the gapless sequence `1..n` whenever no user
turn is dropped by sanitization; when a dropped user turn precedes a kept
one, the ids keep the pre-drop numbering (see the counterexample). -/

theorem c3_turn_invariants (ms : List Msg) :
    List.Chain' (· < ·) (turnIds (assembleTurns 0 ms)) ∧
    (∀ t ∈ assembleTurns 0 ms, jsTrim t.user_message ≠ []) ∧
    ((∀ m ∈ ms, m.role = "user" → emitB (cleanUserMessage m.content) = true) →
      turnIds (assembleTurns 0 ms) = List.range' 1 (userCount ms)) := by
  refine ⟨?_, ?_, ?_⟩
  · exact (assembleF_chain ms.length ms 0).tail
  · intro t ht
    exact assembleF_trim ms.length ms 0 t ht
  · intro hall
    exact assembleF_range ms.length ms (Nat.le_refl _) hall 0

/-- Spec section 8 turn-pairing example, used to instantiate the
invariants at a concrete input. -/

theorem c3_turn_invariants_witness :
    turnIds (assembleTurns 0
      [Msg.mk "user" "A".data, Msg.mk "user" "B".data, Msg.mk "assistant" "R".data]) =
      List.range' 1 2 :=
  (c3_turn_invariants
    [Msg.mk "user" "A".data, Msg.mk "user" "B".data, Msg.mk "assistant" "R".data]).2.2
    (by decide)

/-- Claim C3 counterexample: the claimed gapless `1..n` turn-id sequence
fails on the code: a parser-produced message list whose first user turn
is dropped (empty content) yields the single turn id `[2]`, not `[1]`. -/

theorem c3_counterexample :
    turnIds (parseContextLog c3BadLog) = [2] ∧
    turnIds (parseContextLog c3BadLog) ≠
      List.range' 1 (parseContextLog c3BadLog).length := by
  constructor <;> decide

/- ===== Claim C10: parser termination ===== -/

lemma findFrom_ge {pat l : List Char} {start j : Nat} (h : findFrom pat l start = some j) :
    start ≤ j := by
  unfold findFrom at h
  have hp := List.find?_some h
  simp only [Bool.and_eq_true, decide_eq_true_eq] at hp
  exact hp.1

lemma chooseRole_ge {a : List Char} {pos n : Nat} {ty : String}
    (h : chooseRole a pos = some (n, ty)) : pos ≤ n := by
  unfold chooseRole at h
  cases hu : findFrom roleUserPat a pos with
  | none =>
    rw [hu] at h
    cases hv : findFrom roleAssistantPat a pos with
    | none => rw [hv] at h; simp at h
    | some v =>
      rw [hv] at h
      simp only [Option.some.injEq, Prod.mk.injEq] at h
      obtain ⟨h1, _⟩ := h
      subst h1
      exact findFrom_ge hv
  | some u =>
    rw [hu] at h
    cases hv : findFrom roleAssistantPat a pos with
    | none =>
      rw [hv] at h
      simp only [Option.some.injEq, Prod.mk.injEq] at h
      obtain ⟨h1, _⟩ := h
      subst h1
      exact findFrom_ge hu
    | some v =>
      rw [hv] at h
      by_cases huv : u < v
      · simp [huv] at h
        obtain ⟨h1, _⟩ := h
        subst h1
        exact findFrom_ge hu
      · simp [huv] at h
        obtain ⟨h1, _⟩ := h
        subst h1
        exact findFrom_ge hv

lemma chooseContent_ge {a : List Char} {pos n : Nat} {q : Char}
    (h : chooseContent a pos = some (n, q)) : pos ≤ n := by
  unfold chooseContent at h
  cases hu : findFrom contentSinglePat a pos with
  | none =>
    rw [hu] at h
    cases hv : findFrom contentDoublePat a pos with
    | none => rw [hv] at h; simp at h
    | some v =>
      rw [hv] at h
      simp only [Option.some.injEq, Prod.mk.injEq] at h
      obtain ⟨h1, _⟩ := h
      subst h1
      exact findFrom_ge hv
  | some u =>
    rw [hu] at h
    cases hv : findFrom contentDoublePat a pos with
    | none =>
      rw [hv] at h
      simp only [Option.some.injEq, Prod.mk.injEq] at h
      obtain ⟨h1, _⟩ := h
      subst h1
      exact findFrom_ge hu
    | some v =>
      rw [hv] at h
      by_cases huv : v < u
      · simp [huv] at h
        obtain ⟨h1, _⟩ := h
        subst h1
        exact findFrom_ge hv
      · simp [huv] at h
        obtain ⟨h1, _⟩ := h
        subst h1
        exact findFrom_ge hu

lemma scanContent_le (a : List Char) (q : Char) :
    ∀ fuel i esc, i ≤ a.length → scanContent a q fuel i esc ≤ a.length := by
  intro fuel
  induction fuel with
  | zero => intro i esc hi; simpa [scanContent] using hi
  | succ f ih =>
    intro i esc hi
    cases h : a[i]? with
    | none => simpa [scanContent, h] using hi
    | some c =>
      have hlt : i < a.length := by
        by_contra hc
        push_neg at hc
        rw [List.getElem?_eq_none hc] at h
        cases h
      simp only [scanContent, h]
      split_ifs <;> first
        | exact hi
        | exact ih _ _ (by omega)

lemma msgLoop_none (a : List Char) (fuel pos : Nat) (hp : pos < a.length)
    (hr : chooseRole a pos = none) : msgLoop a (fuel + 1) pos = [] := by
  simp [msgLoop, hp, hr]

lemma msgLoop_noContent (a : List Char) (fuel pos n : Nat) (ty : String)
    (hp : pos < a.length) (hr : chooseRole a pos = some (n, ty))
    (hc : chooseContent a n = none) :
    msgLoop a (fuel + 1) pos = msgLoop a fuel (n + 10) := by
  simp [msgLoop, hp, hr, hc]

lemma msgLoop_cons (a : List Char) (fuel pos n cs : Nat) (ty : String) (q : Char)
    (hp : pos < a.length) (hr : chooseRole a pos = some (n, ty))
    (hc : chooseContent a n = some (cs, q)) :
    msgLoop a (fuel + 1) pos =
      Msg.mk ty (unescape (subStr a (cs + 12) (scanContent a q a.length (cs + 12) false)))
        :: msgLoop a fuel (scanContent a q a.length (cs + 12) false + 1) := by
  simp [msgLoop, hp, hr, hc]

/-- The message loop's value is independent of any fuel at least
`a.length + 1 - pos`: every iteration strictly increases the cursor, so
the unbounded JS `while` loop terminates with this value. -/

lemma msgLoop_stable (a : List Char) :
    ∀ fuel fuel2 pos, a.length + 1 - pos ≤ fuel → a.length + 1 - pos ≤ fuel2 →
      msgLoop a fuel pos = msgLoop a fuel2 pos := by
  intro fuel
  induction fuel with
  | zero =>
    intro fuel2 pos h1 h2
    have hp : ¬ pos < a.length := by omega
    cases fuel2 with
    | zero => rfl
    | succ f2 => simp [msgLoop, hp]
  | succ f ih =>
    intro fuel2 pos h1 h2
    by_cases hp : pos < a.length
    · have hb : 2 ≤ a.length + 1 - pos := by omega
      cases fuel2 with
      | zero => omega
      | succ f2 =>
        cases hr : chooseRole a pos with
        | none => rw [msgLoop_none a f pos hp hr, msgLoop_none a f2 pos hp hr]
        | some rt =>
          obtain ⟨n, ty⟩ := rt
          have hn : pos ≤ n := chooseRole_ge hr
          cases hc : chooseContent a n with
          | none =>
            rw [msgLoop_noContent a f pos n ty hp hr hc,
                msgLoop_noContent a f2 pos n ty hp hr hc]
            exact ih f2 (n + 10) (by omega) (by omega)
          | some cq =>
            obtain ⟨cs, q⟩ := cq
            have hcs : n ≤ cs := chooseContent_ge hc
            have hsc := scanContent_ge a q a.length (cs + 12) false
            rw [msgLoop_cons a f pos n cs ty q hp hr hc,
                msgLoop_cons a f2 pos n cs ty q hp hr hc]
            congr 1
            exact ih f2 (scanContent a q a.length (cs + 12) false + 1)
              (by omega) (by omega)
    · cases fuel2 with
      | zero => simp [msgLoop, hp]
      | succ f2 => simp [msgLoop, hp]

/-- Claim C10: the parser terminates on every input — a string without
the trailing bracketed region parses to no turns at all; the message
loop's result is already reached at fuel `a.length + 1 - pos`, because
the cursor strictly increases on every iteration (so the unbounded JS
loop cannot run forever, also when a role marker has no content marker);
and a content scan never runs past the end of the region: it ends the
message there instead of failing. -/

theorem c10_parser_terminates (s a : List Char) (q : Char) (fuel pos i : Nat) (esc : Bool)
    (hf : a.length + 1 - pos ≤ fuel) (hi : i ≤ a.length) :
    (extractArrayContent s = none → parseContextLog s = []) ∧
    msgLoop a fuel pos = msgLoop a (a.length + 1 - pos) pos ∧
    scanContent a q a.length i esc ≤ a.length := by
  refine ⟨?_, ?_, ?_⟩
  · intro h
    unfold parseContextLog parseMessages
    rw [h]
    rfl
  · exact msgLoop_stable a fuel (a.length + 1 - pos) pos hf (Nat.le_refl _)
  · exact scanContent_le a q a.length i esc hi

theorem c10_parser_terminates_witness :
    (extractArrayContent "hello".data = none → parseContextLog "hello".data = []) ∧
    msgLoop "ab".data 3 0 = msgLoop "ab".data ("ab".data.length + 1 - 0) 0 ∧
    scanContent "ab".data squote "ab".data.length 1 false ≤ "ab".data.length :=
  c10_parser_terminates "hello".data "ab".data squote 3 0 1 false (by decide) (by decide)
